import Mathlib

/-! Shallow embedding of the in-memory IndexedDB mock (setupMockIndexedDB):
the registry state (databases, stores, records, store schemas, auto-increment
counters), the record-table operations (add, put, delete, clear), the cursor,
the open/deleteDatabase/seedDatabase registry operations, and a model of the
setTimeout based completion scheduler.  JS Map objects are embedded as
insertion-ordered association lists; the JS value undefined, which the mock
can end up using as a record key, is a dedicated key constructor. -/

namespace MockIDB

/-- Keys handled by the mock: IDBValidKey values (numbers, strings) plus the
JS value undefined, which the mock stores as a key when a key-path property
is missing from a value. -/
inductive MKey where
  | num (n : Int)
  | str (s : String)
  | undef
deriving DecidableEq, Repr

/-- Stored values: a scalar key-like value, the JS null, or a plain object
with key-valued fields (the shape the mock's key-path extraction reads). -/
inductive MValue where
  | scalar (k : MKey)
  | vnull
  | obj (fields : List (String × MKey))
deriving DecidableEq, Repr

/-! Insertion-ordered association lists embedding JS Map: set on an existing
key updates in place, set on a fresh key appends, get finds the first match. -/

def mapHas {κ α : Type} [DecidableEq κ] (m : List (κ × α)) (k : κ) : Bool :=
  m.any (fun p => decide (p.1 = k))

def mapGet? {κ α : Type} [DecidableEq κ] (m : List (κ × α)) (k : κ) : Option α :=
  (m.find? (fun p => decide (p.1 = k))).map (fun p => p.2)

def mapReplace {κ α : Type} [DecidableEq κ] (m : List (κ × α)) (k : κ) (v : α) : List (κ × α) :=
  m.map (fun p => if p.1 = k then (k, v) else p)

def mapSet {κ α : Type} [DecidableEq κ] (m : List (κ × α)) (k : κ) (v : α) : List (κ × α) :=
  if mapHas m k then mapReplace m k v else m ++ [(k, v)]

def mapDelete {κ α : Type} [DecidableEq κ] (m : List (κ × α)) (k : κ) : List (κ × α) :=
  m.filter (fun p => decide (¬ p.1 = k))

theorem mapGet?_nil {κ α : Type} [DecidableEq κ] (k : κ) :
    mapGet? ([] : List (κ × α)) k = none := rfl

theorem mapGet?_cons {κ α : Type} [DecidableEq κ] (p : κ × α) (rest : List (κ × α)) (k : κ) :
    mapGet? (p :: rest) k = if p.1 = k then some p.2 else mapGet? rest k := by
  by_cases h : p.1 = k
  · rw [mapGet?, List.find?_cons_of_pos _ (by simpa using h)]
    simp [h]
  · rw [mapGet?, List.find?_cons_of_neg _ (by simpa using h)]
    simp [h, mapGet?]

theorem mapHas_cons {κ α : Type} [DecidableEq κ] (p : κ × α) (rest : List (κ × α)) (k : κ) :
    mapHas (p :: rest) k = (decide (p.1 = k) || mapHas rest k) := by
  simp [mapHas]

theorem mapGet?_append {κ α : Type} [DecidableEq κ] (m m' : List (κ × α)) (k : κ) :
    mapGet? (m ++ m') k = ((mapGet? m k).or (mapGet? m' k)) := by
  induction m with
  | nil => simp [mapGet?_nil]
  | cons p rest ih =>
    by_cases h : p.1 = k <;> simp [mapGet?_cons, h, ih]

theorem mapHas_eq_isSome {κ α : Type} [DecidableEq κ] (m : List (κ × α)) (k : κ) :
    mapHas m k = (mapGet? m k).isSome := by
  induction m with
  | nil => rfl
  | cons p rest ih =>
    by_cases h : p.1 = k <;> simp [mapHas_cons, mapGet?_cons, h, ih]

theorem mapGet?_replace_self {κ α : Type} [DecidableEq κ] (m : List (κ × α)) (k : κ) (v : α)
    (h : mapHas m k = true) : mapGet? (mapReplace m k v) k = some v := by
  induction m with
  | nil => simp [mapHas] at h
  | cons p rest ih =>
    by_cases hp : p.1 = k
    · simp [mapReplace, mapGet?_cons, hp]
    · have h' : mapHas rest k = true := by simpa [mapHas_cons, hp] using h
      simpa [mapReplace, mapGet?_cons, hp] using ih h'

theorem mapReplace_cons {κ α : Type} [DecidableEq κ] (p : κ × α) (rest : List (κ × α))
    (k : κ) (v : α) :
    mapReplace (p :: rest) k v = (if p.1 = k then (k, v) else p) :: mapReplace rest k v := by
  simp [mapReplace]

theorem mapDelete_cons {κ α : Type} [DecidableEq κ] (p : κ × α) (rest : List (κ × α)) (k : κ) :
    mapDelete (p :: rest) k = if p.1 = k then mapDelete rest k else p :: mapDelete rest k := by
  by_cases hp : p.1 = k <;> simp [mapDelete, List.filter_cons, hp]

theorem mapGet?_replace_ne {κ α : Type} [DecidableEq κ] (m : List (κ × α)) (k k' : κ) (v : α)
    (h : k' ≠ k) : mapGet? (mapReplace m k v) k' = mapGet? m k' := by
  induction m with
  | nil => rfl
  | cons p rest ih =>
    rw [mapReplace_cons, mapGet?_cons, mapGet?_cons p rest k']
    by_cases hp : p.1 = k
    · rw [if_pos hp]
      have hpk' : ¬ p.1 = k' := by rw [hp]; exact Ne.symm h
      have hk : ¬ ((k, v) : κ × α).1 = k' := Ne.symm h
      rw [if_neg hk, if_neg hpk', ih]
    · rw [if_neg hp]
      by_cases hp' : p.1 = k'
      · rw [if_pos hp', if_pos hp']
      · rw [if_neg hp', if_neg hp', ih]

theorem mapGet?_set_self {κ α : Type} [DecidableEq κ] (m : List (κ × α)) (k : κ) (v : α) :
    mapGet? (mapSet m k v) k = some v := by
  unfold mapSet
  by_cases hh : mapHas m k
  · simp only [hh, if_true]
    exact mapGet?_replace_self m k v hh
  · have hf : mapHas m k = false := by simpa using hh
    simp only [hf, Bool.false_eq_true, if_false]
    have hnone : mapGet? m k = none := by
      cases hmk : mapGet? m k with
      | none => rfl
      | some v' => exact absurd (by rw [mapHas_eq_isSome, hmk]; rfl) hh
    rw [mapGet?_append, hnone]
    rw [mapGet?_cons]
    simp

theorem mapGet?_set_ne {κ α : Type} [DecidableEq κ] (m : List (κ × α)) (k k' : κ) (v : α)
    (h : k' ≠ k) : mapGet? (mapSet m k v) k' = mapGet? m k' := by
  unfold mapSet
  by_cases hh : mapHas m k
  · simp only [hh, if_true]
    exact mapGet?_replace_ne m k k' v h
  · have hf : mapHas m k = false := by simpa using hh
    simp only [hf, Bool.false_eq_true, if_false]
    rw [mapGet?_append]
    have h1 : mapGet? [(k, v)] k' = none := by
      rw [mapGet?_cons]
      have hk : ¬ ((k, v) : κ × α).1 = k' := Ne.symm h
      rw [if_neg hk, mapGet?_nil]
    rw [h1, Option.or_none]

theorem mapGet?_delete_self {κ α : Type} [DecidableEq κ] (m : List (κ × α)) (k : κ) :
    mapGet? (mapDelete m k) k = none := by
  induction m with
  | nil => rfl
  | cons p rest ih =>
    rw [mapDelete_cons]
    by_cases hp : p.1 = k
    · rw [if_pos hp]; exact ih
    · rw [if_neg hp, mapGet?_cons, if_neg hp]; exact ih

theorem mapGet?_delete_ne {κ α : Type} [DecidableEq κ] (m : List (κ × α)) (k k' : κ)
    (h : k' ≠ k) : mapGet? (mapDelete m k) k' = mapGet? m k' := by
  induction m with
  | nil => rfl
  | cons p rest ih =>
    rw [mapDelete_cons, mapGet?_cons p rest k']
    by_cases hp : p.1 = k
    · rw [if_pos hp]
      have hpk' : ¬ p.1 = k' := by rw [hp]; exact Ne.symm h
      rw [if_neg hpk']
      exact ih
    · rw [if_neg hp, mapGet?_cons]
      by_cases hp' : p.1 = k'
      · rw [if_pos hp', if_pos hp']
      · rw [if_neg hp', if_neg hp', ih]

/-- Field lookup on an object value; a missing property reads as none (the
mock then uses the JS undefined as the key). -/
def objGet (fields : List (String × MKey)) (p : String) : Option MKey :=
  mapGet? fields p

/-- A store or index key path as the mock receives it: null, a string, or an
array of strings. -/
inductive MKeyPath where
  | nullPath
  | single (s : String)
  | multi (ps : List String)
deriving DecidableEq, Repr

/-- The check the mock performs before using a key path for extraction or
write-back: the JS test keyPath truthy and typeof keyPath a string.  An empty
string is falsy, an array is not a string. -/
def stringKeyPath : MKeyPath → Option String
  | .single s => if s = "" then none else some s
  | _ => none

/-- An index definition as recorded in storeSchemas by createIndex/seed. -/
structure MIndexSchema where
  keyPath : MKeyPath
  unique : Bool
  multiEntry : Bool
deriving DecidableEq, Repr

/-- A store schema entry: key path, auto-increment flag and index map. -/
structure MStoreSchema where
  keyPath : MKeyPath
  autoIncrement : Bool
  indexes : List (String × MIndexSchema)
deriving DecidableEq, Repr

/-- One database entry of the registry: version, record tables per store
name, and schemas per store name. -/
structure MDBData where
  version : Nat
  stores : List (String × List (MKey × MValue))
  storeSchemas : List (String × MStoreSchema)
deriving DecidableEq, Repr

/-- The whole mutable state captured by setupMockIndexedDB: the databases
map and the auto-increment counters map (keyed by a dbName:storeName
string). -/
structure MockState where
  databases : List (String × MDBData)
  autoIncrementCounters : List (String × Nat)
deriving DecidableEq, Repr

/-- The counter key string used by the mock for store counters. -/
def counterKey (dbName storeName : String) : String :=
  dbName ++ ":" ++ storeName

/-- Counter bump on the raw counters map: read current (default 0), store
current+1, return current+1. -/
def bumpCounter (counters : List (String × Nat)) (dbName storeName : String) :
    Nat × List (String × Nat) :=
  let k := counterKey dbName storeName
  let current := (mapGet? counters k).getD 0
  (current + 1, mapSet counters k (current + 1))

/-- The mock's getAutoIncrementKey on the whole state. -/
def getAutoIncrementKey (s : MockState) (dbName storeName : String) : Nat × MockState :=
  let r := bumpCounter s.autoIncrementCounters dbName storeName
  (r.1, { s with autoIncrementCounters := r.2 })

/-- Current counter value for a store (0 when absent), as the next
getAutoIncrementKey call would read it. -/
def counterOf (s : MockState) (dbName storeName : String) : Nat :=
  (mapGet? s.autoIncrementCounters (counterKey dbName storeName)).getD 0

/-! State getters. -/

def dbEntry? (s : MockState) (name : String) : Option MDBData :=
  mapGet? s.databases name

def dbVersion? (s : MockState) (name : String) : Option Nat :=
  (dbEntry? s name).map (fun d => d.version)

def storeRecords? (s : MockState) (dbName storeName : String) :
    Option (List (MKey × MValue)) :=
  (dbEntry? s dbName).bind (fun d => mapGet? d.stores storeName)

def storeSchema? (s : MockState) (dbName storeName : String) : Option MStoreSchema :=
  (dbEntry? s dbName).bind (fun d => mapGet? d.storeSchemas storeName)

/-- Replace one store's record table (no-op when the database is absent);
used to express the in-place Map mutations of the source. -/
def setRecords (s : MockState) (dbName storeName : String)
    (recs : List (MKey × MValue)) : MockState :=
  match mapGet? s.databases dbName with
  | none => s
  | some db =>
      { s with databases :=
          mapSet s.databases dbName { db with stores := mapSet db.stores storeName recs } }

/-- The mock's lazy store-table creation inside add and put: when the store
has no record Map yet an empty one is installed; returns the (possibly
updated) state together with the records seen by the operation.  Only called
after the database has been checked to exist. -/
def ensureStore (s : MockState) (dbName storeName : String) :
    MockState × List (MKey × MValue) :=
  match mapGet? s.databases dbName with
  | none => (s, [])
  | some db =>
      match mapGet? db.stores storeName with
      | some recs => (s, recs)
      | none =>
          ({ s with databases :=
              mapSet s.databases dbName { db with stores := mapSet db.stores storeName [] } },
           [])

/-- Error names the mock attaches to failing requests. -/
inductive MErr where
  | notFoundError
  | constraintError
  | dataError
  | abortError
  | versionError
deriving DecidableEq, Repr

/-- Result of one store operation request: success result value (the final
key, or none for undefined results) or a failure with an error name. -/
inductive ReqResult where
  | success (res : Option MKey)
  | failure (e : MErr)
deriving DecidableEq, Repr

/-- A key or an IDBKeyRange argument: the mock only tests for an object with
a lower property, so every range is treated alike. -/
inductive MKeyOrRange where
  | key (k : MKey)
  | range (lower upper : Option MKey) (lowerOpen upperOpen : Bool)
deriving DecidableEq, Repr

/-- The handle parameters captured when a store object is created from a
transaction: the schema's key path (null when there is no schema) and
auto-increment flag (false when there is no schema). -/
def storeParams (s : MockState) (dbName storeName : String) : MKeyPath × Bool :=
  match storeSchema? s dbName storeName with
  | none => (MKeyPath.nullPath, false)
  | some sch => (sch.keyPath, sch.autoIncrement)

/-- The store add operation.  Mirrors the source: database lookup (NotFound on
miss), lazy store-table creation, key resolution with precedence explicit
key, then auto-increment (with write-back of the generated key into a string
key path of an object value), then key-path extraction (a missing property
gives the undefined key), else DataError; a duplicate resolved key gives
ConstraintError, otherwise the record is stored.  The third component
reports the generated auto-increment key when one was consumed. -/
def addCore (s : MockState) (dbName storeName : String) (kp : MKeyPath) (ai : Bool)
    (value : MValue) (key? : Option MKey) : MockState × ReqResult × Option Nat :=
  match mapGet? s.databases dbName with
  | none => (s, ReqResult.failure MErr.notFoundError, none)
  | some _ =>
      let es := ensureStore s dbName storeName
      let s1 := es.1
      let records := es.2
      let resolved : Option (MKey × MValue × MockState × Option Nat) :=
        match key? with
        | some k => some (k, value, s1, none)
        | none =>
            if ai then
              let g := getAutoIncrementKey s1 dbName storeName
              let v' := match value, stringKeyPath kp with
                | MValue.obj fs, some p => MValue.obj (mapSet fs p (MKey.num (g.1 : Int)))
                | _, _ => value
              some (MKey.num (g.1 : Int), v', g.2, some g.1)
            else
              match stringKeyPath kp, value with
              | some p, MValue.obj fs =>
                  some ((objGet fs p).getD MKey.undef, MValue.obj fs, s1, none)
              | _, _ => none
      match resolved with
      | none => (s1, ReqResult.failure MErr.dataError, none)
      | some (k, v', s2, g) =>
          if mapHas records k then (s2, ReqResult.failure MErr.constraintError, g)
          else (setRecords s2 dbName storeName (mapSet records k v'), ReqResult.success (some k), g)

/-- The store put operation; like add but no duplicate check, and its
auto-increment branch additionally requires that no record is stored under
the undefined key (the source tests storeData.has(key) with key still
undefined). -/
def putCore (s : MockState) (dbName storeName : String) (kp : MKeyPath) (ai : Bool)
    (value : MValue) (key? : Option MKey) : MockState × ReqResult × Option Nat :=
  match mapGet? s.databases dbName with
  | none => (s, ReqResult.failure MErr.notFoundError, none)
  | some _ =>
      let es := ensureStore s dbName storeName
      let s1 := es.1
      let records := es.2
      let resolved : Option (MKey × MValue × MockState × Option Nat) :=
        match key? with
        | some k => some (k, value, s1, none)
        | none =>
            if ai && !(mapHas records MKey.undef) then
              let g := getAutoIncrementKey s1 dbName storeName
              let v' := match value, stringKeyPath kp with
                | MValue.obj fs, some p => MValue.obj (mapSet fs p (MKey.num (g.1 : Int)))
                | _, _ => value
              some (MKey.num (g.1 : Int), v', g.2, some g.1)
            else
              match stringKeyPath kp, value with
              | some p, MValue.obj fs =>
                  some ((objGet fs p).getD MKey.undef, MValue.obj fs, s1, none)
              | _, _ => none
      match resolved with
      | none => (s1, ReqResult.failure MErr.dataError, none)
      | some (k, v', s2, g) =>
          (setRecords s2 dbName storeName (mapSet records k v'), ReqResult.success (some k), g)

/-- The store delete operation: for a range argument the source iterates all
keys of the store and deletes each (emptying the table); for a plain key it
deletes that entry.  Missing database or store is a silent success. -/
def deleteCore (s : MockState) (dbName storeName : String) (kr : MKeyOrRange) :
    MockState × ReqResult :=
  match mapGet? s.databases dbName with
  | none => (s, ReqResult.success none)
  | some db =>
      match mapGet? db.stores storeName with
      | none => (s, ReqResult.success none)
      | some records =>
          match kr with
          | MKeyOrRange.range _ _ _ _ =>
              (setRecords s dbName storeName [], ReqResult.success none)
          | MKeyOrRange.key k =>
              (setRecords s dbName storeName (mapDelete records k), ReqResult.success none)

/-- The store clear operation: empties the store's record table when both
the database and the table exist. -/
def clearCore (s : MockState) (dbName storeName : String) : MockState × ReqResult :=
  match mapGet? s.databases dbName with
  | none => (s, ReqResult.success none)
  | some db =>
      match mapGet? db.stores storeName with
      | none => (s, ReqResult.success none)
      | some _ => (setRecords s dbName storeName [], ReqResult.success none)

/-- createIndex: records the index in the store's schema when database and
store schema exist; the record tables are never touched and existing records
are not checked. -/
def createIndexCore (s : MockState) (dbName storeName idxName : String) (kp : MKeyPath)
    (uniq multiEntry : Bool) : MockState :=
  match mapGet? s.databases dbName with
  | none => s
  | some db =>
      match mapGet? db.storeSchemas storeName with
      | none => s
      | some sch =>
          let sch' := { sch with indexes := mapSet sch.indexes idxName ⟨kp, uniq, multiEntry⟩ }
          let db' := { db with storeSchemas := mapSet db.storeSchemas storeName sch' }
          { s with databases := mapSet s.databases dbName db' }

/-- createObjectStore on a database handle: installs an empty record table
when missing and (re)writes the store schema with a fresh index map. -/
def createObjectStoreCore (s : MockState) (dbName storeName : String) (kp : MKeyPath)
    (ai : Bool) : MockState :=
  match mapGet? s.databases dbName with
  | none => s
  | some db =>
      let db1 := if mapHas db.stores storeName then db
                 else { db with stores := mapSet db.stores storeName [] }
      let db2 := { db1 with storeSchemas := mapSet db1.storeSchemas storeName ⟨kp, ai, []⟩ }
      { s with databases := mapSet s.databases dbName db2 }

/-- What the open request reports: its error (always null in the source),
the version of the connection handed back (the requested version), and
whether the upgrade path was taken. -/
structure OpenResult where
  error : Option MErr
  dbVersion : Nat
  upgraded : Bool
deriving DecidableEq, Repr

/-- The registry open: a missing database is created at the requested
version (default 1); an existing one with a smaller stored version has its
version raised; otherwise, including when the stored version exceeds the
requested one, nothing is touched and the request still succeeds. -/
def mockOpen (s : MockState) (name : String) (version? : Option Nat) :
    MockState × OpenResult :=
  let requestedVersion := version?.getD 1
  match mapGet? s.databases name with
  | none =>
      ({ s with databases := mapSet s.databases name ⟨requestedVersion, [], []⟩ },
       ⟨none, requestedVersion, true⟩)
  | some db =>
      if db.version < requestedVersion then
        ({ s with databases := mapSet s.databases name { db with version := requestedVersion } },
         ⟨none, requestedVersion, true⟩)
      else (s, ⟨none, requestedVersion, false⟩)

/-- The registry deleteDatabase: removes the database entry; the
auto-increment counters are not touched. -/
def mockDeleteDatabase (s : MockState) (name : String) : MockState × ReqResult :=
  ({ s with databases := mapDelete s.databases name }, ReqResult.success none)

/-- clearAllDatabases from the returned helpers: empties both maps. -/
def clearAllDatabases (_s : MockState) : MockState :=
  ⟨[], []⟩

/-- The data part of cleanup: like clearAllDatabases it empties both maps
(the global hook restoration is outside the embedded state). -/
def cleanupStorage (_s : MockState) : MockState :=
  ⟨[], []⟩

/-! seedDatabase input types, mirroring DatabaseSchema / StoreSchema. -/

structure MDataItem where
  key : Option MKey
  value : MValue
deriving DecidableEq, Repr

structure MIndexDef where
  name : String
  keyPath : MKeyPath
  unique : Bool
  multiEntry : Bool
deriving DecidableEq, Repr

structure MStoreSchemaIn where
  name : String
  keyPath : MKeyPath
  autoIncrement : Bool
  indexes : List MIndexDef
  data : List MDataItem
deriving DecidableEq, Repr

structure MDatabaseSchemaIn where
  name : String
  version : Nat
  stores : List MStoreSchemaIn
deriving DecidableEq, Repr

/-- One data item of seedDatabase: explicit key wins; else an auto-increment
store generates a key (with write-back into a string key path of an object
value); else a string key path on an object value is read (a missing
property giving the undefined key); otherwise the item is skipped. -/
def seedItem (dbName : String) (st : MStoreSchemaIn)
    (acc : List (MKey × MValue) × List (String × Nat)) (item : MDataItem) :
    List (MKey × MValue) × List (String × Nat) :=
  match item.key with
  | some k => (mapSet acc.1 k item.value, acc.2)
  | none =>
      if st.autoIncrement then
        let g := bumpCounter acc.2 dbName st.name
        let v' := match item.value, stringKeyPath st.keyPath with
          | MValue.obj fs, some p => MValue.obj (mapSet fs p (MKey.num (g.1 : Int)))
          | _, _ => item.value
        (mapSet acc.1 (MKey.num (g.1 : Int)) v', g.2)
      else
        match stringKeyPath st.keyPath, item.value with
        | some p, MValue.obj fs =>
            (mapSet acc.1 ((objGet fs p).getD MKey.undef) (MValue.obj fs), acc.2)
        | _, _ => acc

/-- Record table built for one seeded store, threading the counters. -/
def seedStoreData (counters : List (String × Nat)) (dbName : String)
    (st : MStoreSchemaIn) : List (MKey × MValue) × List (String × Nat) :=
  st.data.foldl (seedItem dbName st) ([], counters)

/-- Index map built from the seeded index definitions. -/
def seedIndexes (idxs : List MIndexDef) : List (String × MIndexSchema) :=
  idxs.foldl (fun m d => mapSet m d.name ⟨d.keyPath, d.unique, d.multiEntry⟩) []

/-- The accumulated stores/schemas/counters of a seeding pass. -/
def seedStores (schema : MDatabaseSchemaIn) (counters0 : List (String × Nat)) :
    List (String × List (MKey × MValue)) × List (String × MStoreSchema) ×
      List (String × Nat) :=
  schema.stores.foldl
    (fun acc st =>
      let schemas' := mapSet acc.2.1 st.name ⟨st.keyPath, st.autoIncrement, seedIndexes st.indexes⟩
      let d := seedStoreData acc.2.2 schema.name st
      (mapSet acc.1 st.name d.1, schemas', d.2))
    ([], [], counters0)

/-- seedDatabase: builds fresh store tables and schemas from the input
schema (bumping the auto-increment counters for generated keys) and replaces
the whole entry under the schema's name. -/
def seedDatabase (s : MockState) (schema : MDatabaseSchemaIn) : MockState :=
  let r := seedStores schema s.autoIncrementCounters
  { databases := mapSet s.databases schema.name ⟨schema.version, r.1, r.2.1⟩,
    autoIncrementCounters := r.2.2 }

/-! The cursor engine. -/

inductive MDirection where
  | next
  | nextunique
  | prev
  | prevunique
deriving DecidableEq, Repr

/-- The direction test the source repeats: prev or prevunique. -/
def MDirection.isReverse : MDirection → Bool
  | .prev => true
  | .prevunique => true
  | _ => false

/-- A cursor over the snapshot of entries taken at openCursor time: the
entries array (the store's Map entries in insertion order), the direction,
and the current array index (an integer, since continue can step past either
end). -/
structure MCursor where
  entries : List (MKey × MValue)
  direction : MDirection
  currentIndex : Int
deriving DecidableEq, Repr

/-- createMockCursor: null on an empty entries array, else positioned at the
last entry for reverse directions and the first otherwise. -/
def createMockCursor (entries : List (MKey × MValue)) (direction : MDirection) :
    Option MCursor :=
  if entries.length = 0 then none
  else some ⟨entries, direction,
    if direction.isReverse then (entries.length : Int) - 1 else 0⟩

/-- The key the cursor currently reports: undefined (none) when the index is
out of range, else the entry key at the index. -/
def cursorKey (c : MCursor) : Option MKey :=
  if 0 ≤ c.currentIndex ∧ c.currentIndex < (c.entries.length : Int) then
    (c.entries.get? c.currentIndex.toNat).map (fun p => p.1)
  else none

/-- The value the cursor currently reports, on the same condition. -/
def cursorValue (c : MCursor) : Option MValue :=
  if 0 ≤ c.currentIndex ∧ c.currentIndex < (c.entries.length : Int) then
    (c.entries.get? c.currentIndex.toNat).map (fun p => p.2)
  else none

/-- The cursor continue call: with a key it seeks the first entry with that
exact key (index length, exhausted, if absent); without one it steps the
index one position in the direction. -/
def continueCursor (c : MCursor) (key? : Option MKey) : MCursor :=
  match key? with
  | some k =>
      match c.entries.findIdx? (fun p => decide (p.1 = k)) with
      | some i => { c with currentIndex := (i : Int) }
      | none => { c with currentIndex := (c.entries.length : Int) }
  | none =>
      if c.direction.isReverse then { c with currentIndex := c.currentIndex - 1 }
      else { c with currentIndex := c.currentIndex + 1 }

/-- The cursor advance call: steps count positions in the direction. -/
def advanceCursor (c : MCursor) (count : Nat) : MCursor :=
  if c.direction.isReverse then { c with currentIndex := c.currentIndex - (count : Int) }
  else { c with currentIndex := c.currentIndex + (count : Int) }

/-- Iterated argument-less continue calls. -/
def continueN (c : MCursor) : Nat → MCursor
  | 0 => c
  | n + 1 => continueCursor (continueN c n) none

/-- openCursor on a store: null result when database or store is missing,
else a cursor over the store's entries in insertion order (the range
argument of the source is ignored). -/
def openCursorCore (s : MockState) (dbName storeName : String)
    (direction : MDirection) : Option MCursor :=
  match mapGet? s.databases dbName with
  | none => none
  | some db =>
      match mapGet? db.stores storeName with
      | none => none
      | some records => createMockCursor records direction

/-! Store operations as data, and the request/transaction scheduler model.
All timers the mock creates use setTimeout with delay 0, so they fire in
registration order once the synchronous phase has returned; the model keeps
the registered timers as a queue and drains it afterwards. -/

inductive MOp where
  | add (dbName storeName : String) (value : MValue) (key? : Option MKey)
  | put (dbName storeName : String) (value : MValue) (key? : Option MKey)
  | del (dbName storeName : String) (kr : MKeyOrRange)
  | clear (dbName storeName : String)
deriving DecidableEq, Repr

/-- Run one operation through a store handle obtained from the transaction
(the handle captures the schema's key path and auto-increment flag); the
third component is the auto-increment key generated by the call, if any. -/
def runOpG (s : MockState) : MOp → MockState × ReqResult × Option Nat
  | MOp.add d t v k =>
      let ps := storeParams s d t
      addCore s d t ps.1 ps.2 v k
  | MOp.put d t v k =>
      let ps := storeParams s d t
      putCore s d t ps.1 ps.2 v k
  | MOp.del d t kr =>
      let r := deleteCore s d t kr
      (r.1, r.2, none)
  | MOp.clear d t =>
      let r := clearCore s d t
      (r.1, r.2, none)

def runOp (s : MockState) (op : MOp) : MockState :=
  (runOpG s op).1

def runOps (s : MockState) (ops : List MOp) : MockState :=
  ops.foldl runOp s

/-- A timer registered during the synchronous phase: the transaction's
auto-complete timer (fires complete only if the transaction has no error at
firing time), a request's success timer (createMockRequest registers one for
every request), a request's error timer (registered in addition by the add
error paths that call setTimeout on onerror), and the abort timer. -/
inductive QItem where
  | autoComplete
  | notifySuccess (i : Nat)
  | notifyError (i : Nat) (e : MErr)
  | notifyAbort
deriving DecidableEq, Repr

/-- A notification observed by the caller once timers fire. -/
inductive TxEvent where
  | complete
  | requestSuccess (i : Nat)
  | requestError (i : Nat) (e : MErr)
  | aborted
deriving DecidableEq, Repr

/-- A synchronous session against one transaction: the store state, the
transaction error, the timer queue in registration order, and the number of
requests created so far. -/
structure TxSession where
  state : MockState
  txError : Option MErr
  queue : List QItem
  nextReq : Nat
deriving DecidableEq, Repr

/-- createMockTransaction registers its auto-complete timer immediately, so
a fresh transaction's queue already holds it. -/
def newTransaction (s : MockState) : TxSession :=
  ⟨s, none, [QItem.autoComplete], 0⟩

/-- Which failing operations additionally register an error timer: only the
add error paths for a missing database and for a duplicate key do (the add
DataError path and all put error paths set request.error without scheduling
onerror). -/
def schedulesErrorTimer (op : MOp) (e : MErr) : Bool :=
  match op, e with
  | MOp.add _ _ _ _, MErr.notFoundError => true
  | MOp.add _ _ _ _, MErr.constraintError => true
  | _, _ => false

/-- Issue one operation inside the transaction: state is mutated
synchronously, the request's success timer is registered (createMockRequest
always registers it), plus an error timer on the add error paths. -/
def issueOp (sess : TxSession) (op : MOp) : TxSession :=
  let r := runOpG sess.state op
  let notifs := match r.2.1 with
    | ReqResult.success _ => [QItem.notifySuccess sess.nextReq]
    | ReqResult.failure e =>
        if schedulesErrorTimer op e then
          [QItem.notifySuccess sess.nextReq, QItem.notifyError sess.nextReq e]
        else [QItem.notifySuccess sess.nextReq]
  { state := r.1, txError := sess.txError, queue := sess.queue ++ notifs,
    nextReq := sess.nextReq + 1 }

def issueOps (sess : TxSession) (ops : List MOp) : TxSession :=
  ops.foldl issueOp sess

/-- transaction.abort(): sets the transaction error to AbortError and
registers the abort timer; nothing else — the store state and the already
registered request timers are untouched. -/
def abortTransaction (sess : TxSession) : TxSession :=
  { sess with
      txError := some MErr.abortError
      queue := sess.queue ++ [QItem.notifyAbort] }

/-- What one fired timer delivers: the auto-complete timer checks the
transaction error at firing time, all other timers fire unconditionally. -/
def fireItem (txError : Option MErr) : QItem → List TxEvent
  | QItem.autoComplete => if txError = none then [TxEvent.complete] else []
  | QItem.notifySuccess i => [TxEvent.requestSuccess i]
  | QItem.notifyError i e => [TxEvent.requestError i e]
  | QItem.notifyAbort => [TxEvent.aborted]

/-- The notifications fired after the synchronous phase: timers fire in
registration order (setTimeout 0 semantics); the transaction error is the
one set during the synchronous phase. -/
def drain (sess : TxSession) : List TxEvent :=
  sess.queue.flatMap (fireItem sess.txError)

/-! Operations against one fixed store, and the trace of auto-increment keys
they consume, for the auto-increment claims. -/

inductive StoreOp where
  | add (value : MValue) (key? : Option MKey)
  | put (value : MValue) (key? : Option MKey)
  | del (kr : MKeyOrRange)
deriving DecidableEq, Repr

def toMOp (d t : String) : StoreOp → MOp
  | StoreOp.add v k => MOp.add d t v k
  | StoreOp.put v k => MOp.put d t v k
  | StoreOp.del kr => MOp.del d t kr

/-- The auto-increment keys generated while running the operations in order
against the store (d, t). -/
def genKeys (s : MockState) (d t : String) : List StoreOp → List Nat
  | [] => []
  | op :: rest =>
      let r := runOpG s (toMOp d t op)
      match r.2.2 with
      | some n => n :: genKeys r.1 d t rest
      | none => genKeys r.1 d t rest

def runStoreOps (s : MockState) (d t : String) (ops : List StoreOp) : MockState :=
  runOps s (ops.map (toMOp d t))

/-! Counter bookkeeping lemmas. -/

theorem autoInc_setRecords (s : MockState) (d t : String) (recs : List (MKey × MValue)) :
    (setRecords s d t recs).autoIncrementCounters = s.autoIncrementCounters := by
  unfold setRecords
  split <;> rfl

theorem autoInc_ensureStore (s : MockState) (d t : String) :
    ((ensureStore s d t).1).autoIncrementCounters = s.autoIncrementCounters := by
  unfold ensureStore
  split
  · rfl
  · split <;> rfl

theorem counterOf_congr (s1 s2 : MockState) (d t : String)
    (h : s1.autoIncrementCounters = s2.autoIncrementCounters) :
    counterOf s1 d t = counterOf s2 d t := by
  unfold counterOf
  rw [h]

theorem getAutoIncrementKey_fst (s : MockState) (d t : String) :
    (getAutoIncrementKey s d t).1 = counterOf s d t + 1 := rfl

theorem getAutoIncrementKey_counters (s : MockState) (d t : String) :
    ((getAutoIncrementKey s d t).2).autoIncrementCounters =
      mapSet s.autoIncrementCounters (counterKey d t) (counterOf s d t + 1) := rfl

theorem counterOf_after_set (d t : String) (n : Nat)
    (counters : List (String × Nat)) (c : MockState)
    (h : c.autoIncrementCounters = mapSet counters (counterKey d t) n)
    : counterOf c d t = n := by
  unfold counterOf
  rw [h, mapGet?_set_self]
  rfl

/-- Relation between the counters before and after one store operation: a
run that generates no key leaves the counters map untouched; a run that
generates n has n = previous counter + 1 and writes n back. -/
def counterSpec (s : MockState) (d t : String)
    (r : MockState × ReqResult × Option Nat) : Prop :=
  match r.2.2 with
  | none => r.1.autoIncrementCounters = s.autoIncrementCounters
  | some n => n = counterOf s d t + 1 ∧
      r.1.autoIncrementCounters = mapSet s.autoIncrementCounters (counterKey d t) n

theorem addCore_counterSpec (s : MockState) (d t : String) (kp : MKeyPath) (ai : Bool)
    (v : MValue) (k? : Option MKey) : counterSpec s d t (addCore s d t kp ai v k?) := by
  cases hdb : mapGet? s.databases d with
  | none => simp [counterSpec, addCore, hdb]
  | some db =>
      have hens := autoInc_ensureStore s d t
      have hcnt : counterOf (ensureStore s d t).1 d t = counterOf s d t :=
        counterOf_congr _ _ _ _ hens
      cases hk : k? with
      | some k =>
          simp only [counterSpec, addCore, hdb, hk]
          by_cases hc : mapHas (ensureStore s d t).2 k = true
          · rw [if_pos hc]
            exact hens
          · rw [if_neg hc]
            show (setRecords _ _ _ _).autoIncrementCounters = _
            rw [autoInc_setRecords]
            exact hens
      | none =>
          cases hai : ai with
          | false =>
              cases hsp : stringKeyPath kp with
              | none =>
                  simp only [counterSpec, addCore, hdb, hk, hsp, Bool.false_eq_true, if_false]
                  cases v <;> exact hens
              | some p =>
                  cases v with
                  | scalar k0 =>
                      simp only [counterSpec, addCore, hdb, hk, hsp, Bool.false_eq_true,
                        if_false]
                      exact hens
                  | vnull =>
                      simp only [counterSpec, addCore, hdb, hk, hsp, Bool.false_eq_true,
                        if_false]
                      exact hens
                  | obj fs =>
                      simp only [counterSpec, addCore, hdb, hk, hsp, Bool.false_eq_true,
                        if_false]
                      by_cases hc :
                          mapHas (ensureStore s d t).2 ((objGet fs p).getD MKey.undef) = true
                      · rw [if_pos hc]
                        exact hens
                      · rw [if_neg hc]
                        show (setRecords _ _ _ _).autoIncrementCounters = _
                        rw [autoInc_setRecords]
                        exact hens
          | true =>
              simp only [counterSpec, addCore, hdb, hk, eq_self_iff_true, if_true]
              by_cases hc : mapHas (ensureStore s d t).2
                  (MKey.num ((getAutoIncrementKey (ensureStore s d t).1 d t).1 : Int)) = true
              · rw [if_pos hc]
                refine ⟨?_, ?_⟩
                · rw [getAutoIncrementKey_fst, hcnt]
                · rw [getAutoIncrementKey_counters, hens, getAutoIncrementKey_fst, hcnt]
              · rw [if_neg hc]
                refine ⟨?_, ?_⟩
                · rw [getAutoIncrementKey_fst, hcnt]
                · show (setRecords _ _ _ _).autoIncrementCounters = _
                  rw [autoInc_setRecords, getAutoIncrementKey_counters, hens,
                    getAutoIncrementKey_fst, hcnt]

theorem putCore_counterSpec (s : MockState) (d t : String) (kp : MKeyPath) (ai : Bool)
    (v : MValue) (k? : Option MKey) : counterSpec s d t (putCore s d t kp ai v k?) := by
  cases hdb : mapGet? s.databases d with
  | none => simp [counterSpec, putCore, hdb]
  | some db =>
      have hens := autoInc_ensureStore s d t
      have hcnt : counterOf (ensureStore s d t).1 d t = counterOf s d t :=
        counterOf_congr _ _ _ _ hens
      cases hk : k? with
      | some k =>
          simp only [counterSpec, putCore, hdb, hk]
          show (setRecords _ _ _ _).autoIncrementCounters = _
          rw [autoInc_setRecords]
          exact hens
      | none =>
          by_cases hb : (ai && !(mapHas (ensureStore s d t).2 MKey.undef)) = true
          · simp only [counterSpec, putCore, hdb, hk]
            rw [if_pos hb]
            refine ⟨?_, ?_⟩
            · rw [getAutoIncrementKey_fst, hcnt]
            · show (setRecords _ _ _ _).autoIncrementCounters = _
              rw [autoInc_setRecords, getAutoIncrementKey_counters, hens,
                getAutoIncrementKey_fst, hcnt]
          · cases hsp : stringKeyPath kp with
            | none =>
                simp only [counterSpec, putCore, hdb, hk, hsp]
                rw [if_neg hb]
                cases v <;> exact hens
            | some p =>
                cases v with
                | scalar k0 =>
                    simp only [counterSpec, putCore, hdb, hk, hsp]
                    rw [if_neg hb]
                    exact hens
                | vnull =>
                    simp only [counterSpec, putCore, hdb, hk, hsp]
                    rw [if_neg hb]
                    exact hens
                | obj fs =>
                    simp only [counterSpec, putCore, hdb, hk, hsp]
                    rw [if_neg hb]
                    show (setRecords _ _ _ _).autoIncrementCounters = _
                    rw [autoInc_setRecords]
                    exact hens

theorem deleteCore_counters (s : MockState) (d t : String) (kr : MKeyOrRange) :
    ((deleteCore s d t kr).1).autoIncrementCounters = s.autoIncrementCounters := by
  unfold deleteCore
  split
  · rfl
  · split
    · rfl
    · split
      · exact autoInc_setRecords s d t []
      · exact autoInc_setRecords s d t _

theorem clearCore_counters (s : MockState) (d t : String) :
    ((clearCore s d t).1).autoIncrementCounters = s.autoIncrementCounters := by
  unfold clearCore
  split
  · rfl
  · split
    · rfl
    · exact autoInc_setRecords s d t []

theorem runOpG_counterSpec (s : MockState) (d t : String) (op : StoreOp) :
    counterSpec s d t (runOpG s (toMOp d t op)) := by
  cases op with
  | add v k => exact addCore_counterSpec s d t _ _ v k
  | put v k => exact putCore_counterSpec s d t _ _ v k
  | del kr => exact deleteCore_counters s d t kr

theorem genStep_some (s : MockState) (d t : String) (op : StoreOp) (n : Nat)
    (h : (runOpG s (toMOp d t op)).2.2 = some n) :
    n = counterOf s d t + 1 ∧
      counterOf (runOpG s (toMOp d t op)).1 d t = counterOf s d t + 1 := by
  have hs := runOpG_counterSpec s d t op
  unfold counterSpec at hs
  rw [h] at hs
  refine ⟨hs.1, ?_⟩
  rw [counterOf_after_set d t n s.autoIncrementCounters _ hs.2]
  exact hs.1

theorem genStep_none (s : MockState) (d t : String) (op : StoreOp)
    (h : (runOpG s (toMOp d t op)).2.2 = none) :
    counterOf (runOpG s (toMOp d t op)).1 d t = counterOf s d t := by
  have hs := runOpG_counterSpec s d t op
  unfold counterSpec at hs
  rw [h] at hs
  exact counterOf_congr _ _ _ _ hs

theorem range1_succ (a n : Nat) : List.range' a (n + 1) = a :: List.range' (a + 1) n := rfl

theorem mem_range1 (m : Nat) : ∀ (a b : Nat), b ∈ List.range' a m → a ≤ b ∧ b < a + m := by
  induction m with
  | zero => intro a b hb; simp [List.range'] at hb
  | succ k ih =>
      intro a b hb
      rw [range1_succ] at hb
      rcases List.mem_cons.mp hb with h | h
      · omega
      · have := ih (a + 1) b h
        omega

theorem pairwise_lt_range1 (n : Nat) : ∀ a, (List.range' a n).Pairwise (· < ·) := by
  induction n with
  | zero => intro a; simp [List.range']
  | succ m ih =>
      intro a
      rw [range1_succ]
      refine List.Pairwise.cons ?_ (ih (a + 1))
      intro b hb
      have := mem_range1 m (a + 1) b hb
      omega

/-- The generated-key trace of a run is the consecutive range starting just
above the store's counter. -/
theorem genKeys_range (d t : String) : ∀ (ops : List StoreOp) (s : MockState),
    genKeys s d t ops = List.range' (counterOf s d t + 1) (genKeys s d t ops).length := by
  intro ops
  induction ops with
  | nil => intro s; rfl
  | cons op rest ih =>
      intro s
      cases hg : (runOpG s (toMOp d t op)).2.2 with
      | none =>
          have hc := genStep_none s d t op hg
          simp only [genKeys, hg]
          rw [ih, hc]
          simp [List.length_range']
      | some n =>
          obtain ⟨hn, hc⟩ := genStep_some s d t op n hg
          simp only [genKeys, hg]
          rw [ih ((runOpG s (toMOp d t op)).1), hc, hn, List.length_cons, range1_succ]
          simp [List.length_range']

/-! Scheduler queue bookkeeping. -/

/-- The request number a timer belongs to, when it is a request timer. -/
def notifIndex : QItem → Option Nat
  | QItem.notifySuccess i => some i
  | QItem.notifyError i _ => some i
  | _ => none

/-- The request number a fired notification belongs to. -/
def eventIndex : TxEvent → Option Nat
  | TxEvent.requestSuccess i => some i
  | TxEvent.requestError i _ => some i
  | _ => none

/-- Shape of the queue of a session built from a fresh transaction by
synchronous operations: the auto-complete timer heads the queue, the rest
are request timers with non-decreasing request numbers below nextReq, every
request number below nextReq occurs, and no error has been set. -/
def goodQueue (sess : TxSession) : Prop :=
  ∃ rest, sess.queue = QItem.autoComplete :: rest ∧
    (∀ q ∈ rest, q ≠ QItem.autoComplete ∧ q ≠ QItem.notifyAbort) ∧
    (rest.filterMap notifIndex).Pairwise (· ≤ ·) ∧
    (∀ i ∈ rest.filterMap notifIndex, i < sess.nextReq) ∧
    List.Sublist (List.range sess.nextReq) (rest.filterMap notifIndex) ∧
    sess.txError = none

theorem goodQueue_newTransaction (s : MockState) : goodQueue (newTransaction s) := by
  refine ⟨[], rfl, ?_, ?_, ?_, ?_, rfl⟩ <;> simp [newTransaction]

/-- The timers一 one issued operation appends: all carry its request number,
and none is an auto-complete or abort timer. -/
theorem issueOp_notifs (sess : TxSession) (op : MOp) :
    ∃ notifs, (issueOp sess op).queue = sess.queue ++ notifs ∧
      (issueOp sess op).nextReq = sess.nextReq + 1 ∧
      (issueOp sess op).txError = sess.txError ∧
      (∀ q ∈ notifs, q ≠ QItem.autoComplete ∧ q ≠ QItem.notifyAbort) ∧
      (∃ m, 1 ≤ m ∧ notifs.filterMap notifIndex = List.replicate m sess.nextReq) := by
  cases hr : (runOpG sess.state op).2.1 with
  | success res =>
      refine ⟨[QItem.notifySuccess sess.nextReq], ?_, rfl, rfl,
        by simp, 1, le_refl 1, by simp [notifIndex, List.replicate]⟩
      simp only [issueOp, hr]
  | failure e =>
      by_cases hs : schedulesErrorTimer op e = true
      · refine ⟨[QItem.notifySuccess sess.nextReq, QItem.notifyError sess.nextReq e], ?_, rfl,
          rfl, by simp, 2, by omega, by simp [notifIndex, List.replicate]⟩
        simp only [issueOp, hr]
        rw [if_pos hs]
      · refine ⟨[QItem.notifySuccess sess.nextReq], ?_, rfl, rfl,
          by simp, 1, le_refl 1, by simp [notifIndex, List.replicate]⟩
        simp only [issueOp, hr]
        rw [if_neg hs]

theorem pairwise_le_replicate (m n : Nat) :
    (List.replicate m n).Pairwise (fun a b => a ≤ b) := by
  induction m with
  | zero => simp
  | succ k ih =>
      rw [List.replicate_succ]
      refine List.Pairwise.cons ?_ ih
      intro b hb
      rw [List.eq_of_mem_replicate hb]

theorem goodQueue_issueOp (sess : TxSession) (op : MOp) (h : goodQueue sess) :
    goodQueue (issueOp sess op) := by
  obtain ⟨rest, hq, hmem, hsort, hlt, hsub, herr⟩ := h
  obtain ⟨notifs, hq', hn', he', hnm, m, hm1, hfm⟩ := issueOp_notifs sess op
  refine ⟨rest ++ notifs, ?_, ?_, ?_, ?_, ?_, ?_⟩
  · rw [hq', hq]
    simp
  · intro q hqmem
    rcases List.mem_append.mp hqmem with h1 | h1
    · exact hmem q h1
    · exact hnm q h1
  · rw [List.filterMap_append, hfm]
    rw [List.pairwise_append]
    refine ⟨hsort, pairwise_le_replicate m sess.nextReq, ?_⟩
    intro a ha b hb
    have h1 := hlt a ha
    have h2 := List.eq_of_mem_replicate hb
    omega
  · intro i hi
    rw [List.filterMap_append, hfm] at hi
    rw [hn']
    rcases List.mem_append.mp hi with h1 | h1
    · have := hlt i h1
      omega
    · have := List.eq_of_mem_replicate h1
      omega
  · rw [List.filterMap_append, hfm, hn', List.range_succ]
    refine List.Sublist.append hsub ?_
    cases m with
    | zero => omega
    | succ k =>
        rw [List.replicate_succ]
        exact List.cons_sublist_cons.mpr (List.nil_sublist _)
  · rw [he', herr]

theorem goodQueue_issueOps (ops : List MOp) : ∀ (sess : TxSession), goodQueue sess →
    goodQueue (issueOps sess ops) := by
  induction ops with
  | nil => intro sess h; exact h
  | cons op rest ih =>
      intro sess h
      exact ih (issueOp sess op) (goodQueue_issueOp sess op h)

theorem nextReq_issueOps (ops : List MOp) : ∀ (sess : TxSession),
    (issueOps sess ops).nextReq = sess.nextReq + ops.length := by
  induction ops with
  | nil => intro sess; rfl
  | cons op rest ih =>
      intro sess
      show (issueOps (issueOp sess op) rest).nextReq = _
      rw [ih (issueOp sess op)]
      obtain ⟨_, _, hn, _⟩ := issueOp_notifs sess op
      rw [hn]
      simp [List.length_cons]
      omega

/-- One fired timer contributes exactly the request number of its timer to
the event indices, whatever the transaction error. -/
theorem filterMap_eventIndex_fireItem (err : Option MErr) (q : QItem) :
    (fireItem err q).filterMap eventIndex = (notifIndex q).toList := by
  cases q with
  | autoComplete =>
      by_cases h : err = none
      · simp [fireItem, h, eventIndex, notifIndex]
      · simp [fireItem, h, notifIndex]
  | notifySuccess i => simp [fireItem, eventIndex, notifIndex]
  | notifyError i e => simp [fireItem, eventIndex, notifIndex]
  | notifyAbort => simp [fireItem, eventIndex, notifIndex]

theorem filterMap_eventIndex_flatMap (err : Option MErr) (q : List QItem) :
    (q.flatMap (fireItem err)).filterMap eventIndex = q.filterMap notifIndex := by
  induction q with
  | nil => rfl
  | cons item rest ih =>
      rw [List.flatMap_cons, List.filterMap_append, filterMap_eventIndex_fireItem, ih]
      cases hni : notifIndex item with
      | none => simp [hni, List.filterMap_cons, hni]
      | some i => simp [hni, List.filterMap_cons, hni]

theorem complete_not_mem_fireItem (err : Option MErr) (q : QItem)
    (h : q ≠ QItem.autoComplete) : TxEvent.complete ∉ fireItem err q := by
  cases q with
  | autoComplete => exact absurd rfl h
  | notifySuccess i => simp [fireItem]
  | notifyError i e => simp [fireItem]
  | notifyAbort => simp [fireItem]

theorem fireItem_err_irrelevant (err err' : Option MErr) (q : QItem)
    (h : q ≠ QItem.autoComplete) : fireItem err q = fireItem err' q := by
  cases q with
  | autoComplete => exact absurd rfl h
  | notifySuccess i => rfl
  | notifyError i e => rfl
  | notifyAbort => rfl

/-! Cursor stepping arithmetic. -/

theorem continueN_spec (c : MCursor) (n : Nat) :
    continueN c n =
      { c with currentIndex :=
          if c.direction.isReverse then c.currentIndex - (n : Int)
          else c.currentIndex + (n : Int) } := by
  induction n with
  | zero =>
      show c = _
      cases hrev : c.direction.isReverse <;> simp [hrev]
  | succ m ih =>
      show continueCursor (continueN c m) none = _
      rw [ih]
      unfold continueCursor
      cases hrev : c.direction.isReverse <;> simp [hrev, MCursor.mk.injEq] <;> omega

theorem cursorKey_mk (entries : List (MKey × MValue)) (dir : MDirection) (i : Int) :
    cursorKey ⟨entries, dir, i⟩ =
      if 0 ≤ i ∧ i < (entries.length : Int) then
        (entries.get? i.toNat).map (fun p => p.1)
      else none := rfl

/-! Getter lemmas for setRecords. -/

theorem dbEntry?_setRecords (s : MockState) (d t : String) (recs : List (MKey × MValue))
    (d' : String) :
    dbEntry? (setRecords s d t recs) d' =
      if d' = d then
        (dbEntry? s d).map (fun db => { db with stores := mapSet db.stores t recs })
      else dbEntry? s d' := by
  unfold setRecords dbEntry?
  cases hdb : mapGet? s.databases d with
  | none =>
      by_cases hd : d' = d
      · subst hd; simp [hdb]
      · simp [hd]
  | some db =>
      by_cases hd : d' = d
      · subst hd
        simp [hdb, mapGet?_set_self]
      · simp [hd, hdb, mapGet?_set_ne _ _ _ _ hd]

theorem storeRecords?_setRecords_self (s : MockState) (d t : String)
    (recs : List (MKey × MValue)) (h : (dbEntry? s d).isSome) :
    storeRecords? (setRecords s d t recs) d t = some recs := by
  unfold storeRecords?
  rw [dbEntry?_setRecords]
  rw [if_pos rfl]
  cases hdb : dbEntry? s d with
  | none => rw [hdb] at h; simp at h
  | some db => simp [mapGet?_set_self]

theorem storeRecords?_setRecords_other (s : MockState) (d t : String)
    (recs : List (MKey × MValue)) (d' t' : String) (h : ¬(d' = d ∧ t' = t)) :
    storeRecords? (setRecords s d t recs) d' t' = storeRecords? s d' t' := by
  unfold storeRecords?
  rw [dbEntry?_setRecords]
  by_cases hd : d' = d
  · rw [if_pos hd]
    have ht : t' ≠ t := fun hc => h ⟨hd, hc⟩
    subst hd
    cases hdb : dbEntry? s d' with
    | none => simp
    | some db => simp [mapGet?_set_ne _ _ _ _ ht]
  · rw [if_neg hd]

theorem dbVersion?_setRecords (s : MockState) (d t : String) (recs : List (MKey × MValue))
    (d' : String) : dbVersion? (setRecords s d t recs) d' = dbVersion? s d' := by
  unfold dbVersion?
  rw [dbEntry?_setRecords]
  by_cases hd : d' = d
  · rw [if_pos hd]
    subst hd
    cases hdb : dbEntry? s d' <;> simp
  · rw [if_neg hd]

theorem storeSchema?_setRecords (s : MockState) (d t : String) (recs : List (MKey × MValue))
    (d' t' : String) : storeSchema? (setRecords s d t recs) d' t' = storeSchema? s d' t' := by
  unfold storeSchema?
  rw [dbEntry?_setRecords]
  by_cases hd : d' = d
  · rw [if_pos hd]
    subst hd
    cases hdb : dbEntry? s d' <;> simp
  · rw [if_neg hd]

/-! Predicates from the specification's words, used only to state claims:
the key total order (numbers before strings; undefined not comparable) and
range membership with open/closed bounds. -/

def keyLtB : MKey → MKey → Bool
  | MKey.num a, MKey.num b => decide (a < b)
  | MKey.num _, MKey.str _ => true
  | MKey.str a, MKey.str b => decide (a < b)
  | _, _ => false

def keyLeB (a b : MKey) : Bool := keyLtB a b || decide (a = b)

def rangeMatchesB : MKeyOrRange → MKey → Bool
  | MKeyOrRange.key k', k => decide (k = k')
  | MKeyOrRange.range lo hi loOpen hiOpen, k =>
      (match lo with
       | none => true
       | some l => if loOpen then keyLtB l k else keyLeB l k) &&
      (match hi with
       | none => true
       | some u => if hiOpen then keyLtB k u else keyLeB k u)

/-- The value an index with string key path ip would extract from a stored
value (from the spec's description of index keys). -/
def indexedValue (v : MValue) (ip : String) : Option MKey :=
  match v with
  | MValue.obj fs => objGet fs ip
  | _ => none

/-! Concrete example states used by counterexamples and witnesses. -/

/-- A database app with one store users (key path id, not auto-increment)
and no records. -/
def exUsersDb : MockState :=
  ⟨[("app", ⟨1, [("users", [])],
      [("users", ⟨MKeyPath.single "id", false, []⟩)]⟩)], []⟩

/-- The same database with users auto-increment. -/
def exUsersAiDb : MockState :=
  ⟨[("app", ⟨1, [("users", [])],
      [("users", ⟨MKeyPath.single "id", true, []⟩)]⟩)], []⟩

def exRec1 : MValue := MValue.obj [("id", MKey.num 1), ("email", MKey.str "a@x.com")]

def exRec2 : MValue := MValue.obj [("id", MKey.num 2), ("email", MKey.str "a@x.com")]

/-- C1 counterexample.  Two operations are issued synchronously against one
transaction; the fired notification trace is complete first, then the two
request notifications — the commit (complete) notification is not last, so
it does not fire strictly after all request notifications as claimed. -/
theorem c1_counterexample :
    drain (issueOps (newTransaction exUsersDb)
        [MOp.add "app" "users" exRec1 none, MOp.add "app" "users" exRec2 none]) =
      [TxEvent.complete, TxEvent.requestSuccess 0, TxEvent.requestSuccess 1] ∧
    ¬ ((drain (issueOps (newTransaction exUsersDb)
        [MOp.add "app" "users" exRec1 none, MOp.add "app" "users" exRec2 none])).getLast? =
      some TxEvent.complete) := by
  decide

/-- C1 (amended).  For operations issued synchronously against one
transaction: every request is returned synchronously and no notification
fires before the synchronous phase ends (drain fires only registered
timers); the request notifications fire in issuance order (their indices are
non-decreasing and every issued request notifies); but the transaction's
complete notification fires strictly BEFORE all request notifications — it
heads the trace and occurs nowhere later — because its timer is registered
at transaction creation, before any request timer. -/
theorem c1_scheduler_ordering (s : MockState) (ops : List MOp) :
    (drain (issueOps (newTransaction s) ops)).head? = some TxEvent.complete ∧
    TxEvent.complete ∉ (drain (issueOps (newTransaction s) ops)).tail ∧
    ((drain (issueOps (newTransaction s) ops)).filterMap eventIndex).Pairwise
      (fun a b => a ≤ b) ∧
    List.Sublist (List.range ops.length)
      ((drain (issueOps (newTransaction s) ops)).filterMap eventIndex) := by
  obtain ⟨rest, hq, hmem, hsort, hlt, hsub, herr⟩ :=
    goodQueue_issueOps ops (newTransaction s) (goodQueue_newTransaction s)
  have hdrain : drain (issueOps (newTransaction s) ops) =
      TxEvent.complete :: rest.flatMap (fireItem none) := by
    rw [drain, hq, herr]
    rw [List.flatMap_cons]
    simp [fireItem]
  have hfm : (drain (issueOps (newTransaction s) ops)).filterMap eventIndex =
      rest.filterMap notifIndex := by
    rw [drain, filterMap_eventIndex_flatMap, hq]
    simp [List.filterMap_cons, notifIndex]
  refine ⟨?_, ?_, ?_, ?_⟩
  · rw [hdrain]; rfl
  · rw [hdrain]
    intro hc
    obtain ⟨q, hq1, hq2⟩ := List.mem_flatMap.mp hc
    exact complete_not_mem_fireItem none q (hmem q hq1).1 hq2
  · rw [hfm]
    exact hsort
  · rw [hfm]
    have hnr : (issueOps (newTransaction s) ops).nextReq = ops.length := by
      rw [nextReq_issueOps]
      simp [newTransaction]
    rw [← hnr]
    exact hsub

/-- C5 counterexample.  The pre-transaction snapshot of users is empty; an
add is applied and the transaction aborted; afterwards the record table
still holds the written record (no snapshot restore) and the request's
success notification still fires (not invalidated with an abort error). -/
theorem c5_counterexample :
    storeRecords? exUsersDb "app" "users" = some [] ∧
    storeRecords?
        (abortTransaction (issueOps (newTransaction exUsersDb)
          [MOp.add "app" "users" exRec1 none])).state "app" "users" =
      some [(MKey.num 1, exRec1)] ∧
    TxEvent.requestSuccess 0 ∈
      drain (abortTransaction (issueOps (newTransaction exUsersDb)
        [MOp.add "app" "users" exRec1 none])) := by
  decide

/-- C5 (amended).  Aborting after synchronously issued writes leaves the
in-memory state exactly as the writes left it (no snapshot restore), lets
the already-registered request notifications fire unchanged, and fires an
abort notification instead of the complete notification (which is
suppressed by the transaction error). -/
theorem c5_abort_behavior (s : MockState) (ops : List MOp) :
    (abortTransaction (issueOps (newTransaction s) ops)).state =
      (issueOps (newTransaction s) ops).state ∧
    TxEvent.complete ∉ drain (abortTransaction (issueOps (newTransaction s) ops)) ∧
    drain (abortTransaction (issueOps (newTransaction s) ops)) =
      (drain (issueOps (newTransaction s) ops)).tail ++ [TxEvent.aborted] := by
  obtain ⟨rest, hq, hmem, _, _, _, herr⟩ :=
    goodQueue_issueOps ops (newTransaction s) (goodQueue_newTransaction s)
  have habq : (abortTransaction (issueOps (newTransaction s) ops)).queue =
      QItem.autoComplete :: (rest ++ [QItem.notifyAbort]) := by
    show (issueOps (newTransaction s) ops).queue ++ [QItem.notifyAbort] = _
    rw [hq]
    rfl
  have haberr : (abortTransaction (issueOps (newTransaction s) ops)).txError =
      some MErr.abortError := rfl
  have h0 : fireItem (some MErr.abortError) QItem.autoComplete = [] := by
    simp [fireItem]
  refine ⟨rfl, ?_, ?_⟩
  · intro hc
    rw [drain, habq, haberr, List.flatMap_cons, h0, List.nil_append,
      List.flatMap_append] at hc
    rcases List.mem_append.mp hc with h1 | h1
    · obtain ⟨q, hq1, hq2⟩ := List.mem_flatMap.mp h1
      exact complete_not_mem_fireItem _ q (hmem q hq1).1 hq2
    · simp [List.flatMap_cons, fireItem] at h1
  · have h1 : fireItem none QItem.autoComplete = [TxEvent.complete] := by
      simp [fireItem]
    have h2 : rest.flatMap (fireItem (some MErr.abortError)) =
        rest.flatMap (fireItem none) := by
      refine List.flatMap_congr ?_
      intro q hq1
      exact fireItem_err_irrelevant _ _ q (hmem q hq1).1
    rw [drain, habq, haberr]
    rw [drain, hq, herr]
    simp only [List.flatMap_cons, List.flatMap_append, List.flatMap_nil, h0, h1,
      List.nil_append, List.append_nil, List.singleton_append, List.tail_cons, h2]
    simp [fireItem]

/-- C4.  Auto-increment keys of one store are consumed as the consecutive
run just above the stored counter: along any add/put/delete sequence the
generated keys are strictly increasing (hence never reused, also across
deletes), all positive; and on a fresh auto-increment store the first two
keyless adds generate keys 1 and 2 (the §8 scenario). -/
theorem c4_autoincrement_monotonic (s : MockState) (d t : String) (ops : List StoreOp) :
    genKeys s d t ops =
      List.range' (counterOf s d t + 1) (genKeys s d t ops).length ∧
    (genKeys s d t ops).Pairwise (fun a b => a < b) ∧
    (∀ k ∈ genKeys s d t ops, 0 < k) ∧
    genKeys exUsersAiDb "app" "users"
        [StoreOp.add (MValue.obj [("name", MKey.str "Alice")]) none,
         StoreOp.add (MValue.obj [("name", MKey.str "Bob")]) none] = [1, 2] ∧
    storeRecords? (runStoreOps exUsersAiDb "app" "users"
        [StoreOp.add (MValue.obj [("name", MKey.str "Alice")]) none,
         StoreOp.add (MValue.obj [("name", MKey.str "Bob")]) none]) "app" "users" =
      some [(MKey.num 1, MValue.obj [("name", MKey.str "Alice"), ("id", MKey.num 1)]),
            (MKey.num 2, MValue.obj [("name", MKey.str "Bob"), ("id", MKey.num 2)])] := by
  refine ⟨genKeys_range d t ops s, ?_, ?_, by decide, by decide⟩
  · rw [genKeys_range d t ops s]
    exact pairwise_lt_range1 _ _
  · intro k hk
    rw [genKeys_range d t ops s] at hk
    have := mem_range1 _ _ _ hk
    omega

/-! Counter preservation of the registry operations, for C8. -/

theorem autoInc_mockOpen (s : MockState) (name : String) (v? : Option Nat) :
    ((mockOpen s name v?).1).autoIncrementCounters = s.autoIncrementCounters := by
  cases h : mapGet? s.databases name with
  | none => simp [mockOpen, h]
  | some db =>
      by_cases hv : db.version < v?.getD 1 <;> simp [mockOpen, h, hv]

theorem autoInc_createObjectStoreCore (s : MockState) (d t : String) (kp : MKeyPath)
    (ai : Bool) :
    (createObjectStoreCore s d t kp ai).autoIncrementCounters = s.autoIncrementCounters := by
  unfold createObjectStoreCore
  split <;> rfl

theorem autoInc_createIndexCore (s : MockState) (d t i : String) (kp : MKeyPath)
    (uniq me : Bool) :
    (createIndexCore s d t i kp uniq me).autoIncrementCounters = s.autoIncrementCounters := by
  unfold createIndexCore
  split
  · rfl
  · split <;> rfl

/-- A keyless add on an auto-increment store handle always consumes the next
counter value, whatever the record table holds. -/
theorem addCore_gen (s : MockState) (d t : String) (kp : MKeyPath) (v : MValue)
    (hdb : (mapGet? s.databases d).isSome) :
    (addCore s d t kp true v none).2.2 = some (counterOf s d t + 1) := by
  obtain ⟨db, hdb'⟩ := Option.isSome_iff_exists.mp hdb
  simp only [addCore, hdb', eq_self_iff_true, if_true]
  by_cases hc : mapHas (ensureStore s d t).2
      (MKey.num ((getAutoIncrementKey (ensureStore s d t).1 d t).1 : Int)) = true
  · rw [if_pos hc]
    show some (getAutoIncrementKey (ensureStore s d t).1 d t).1 = _
    rw [getAutoIncrementKey_fst, counterOf_congr _ _ d t (autoInc_ensureStore s d t)]
  · rw [if_neg hc]
    show some (getAutoIncrementKey (ensureStore s d t).1 d t).1 = _
    rw [getAutoIncrementKey_fst, counterOf_congr _ _ d t (autoInc_ensureStore s d t)]

/-- C8.  deleteDatabase (and open, and createObjectStore) leave the
auto-increment counters untouched; only clearAllDatabases and cleanup empty
them; so after deleting a database, recreating it (open) and recreating an
auto-increment store of the same name, the next keyless add generates the
pre-deletion counter value plus one rather than restarting at 1. -/
theorem c8_counters_survive_delete (s : MockState) (name stName : String) (ver : Nat)
    (kp : MKeyPath) (v : MValue) :
    ((mockDeleteDatabase s name).1).autoIncrementCounters = s.autoIncrementCounters ∧
    ((mockOpen s name (some ver)).1).autoIncrementCounters = s.autoIncrementCounters ∧
    (createObjectStoreCore s name stName kp true).autoIncrementCounters =
      s.autoIncrementCounters ∧
    (clearAllDatabases s).autoIncrementCounters = [] ∧
    (cleanupStorage s).autoIncrementCounters = [] ∧
    (runOpG (createObjectStoreCore
        (mockOpen (mockDeleteDatabase s name).1 name (some ver)).1 name stName kp true)
      (MOp.add name stName v none)).2.2 = some (counterOf s name stName + 1) := by
  refine ⟨rfl, autoInc_mockOpen s name (some ver),
    autoInc_createObjectStoreCore s name stName kp true, rfl, rfl, ?_⟩
  have h1 : mapGet? ((mockDeleteDatabase s name).1).databases name = none :=
    mapGet?_delete_self _ _
  have h2 : ((mockOpen (mockDeleteDatabase s name).1 name (some ver)).1).databases =
      mapSet ((mockDeleteDatabase s name).1).databases name ⟨ver, [], []⟩ := by
    show (mockOpen (mockDeleteDatabase s name).1 name (some ver)).1.databases = _
    simp only [mockOpen, h1]
    rfl
  have h3db : mapGet?
      ((mockOpen (mockDeleteDatabase s name).1 name (some ver)).1).databases name =
      some ⟨ver, [], []⟩ := by
    rw [h2]
    exact mapGet?_set_self _ _ _
  have h3 : (createObjectStoreCore
      (mockOpen (mockDeleteDatabase s name).1 name (some ver)).1 name stName kp true).databases =
      mapSet ((mockOpen (mockDeleteDatabase s name).1 name (some ver)).1).databases name
        ⟨ver, [(stName, [])], [(stName, ⟨kp, true, []⟩)]⟩ := by
    simp only [createObjectStoreCore, h3db]
    simp [mapHas, mapSet]
  have hc3 : (createObjectStoreCore
      (mockOpen (mockDeleteDatabase s name).1 name (some ver)).1 name stName kp
        true).autoIncrementCounters = s.autoIncrementCounters := by
    rw [autoInc_createObjectStoreCore, autoInc_mockOpen]
    rfl
  have hsp : storeParams (createObjectStoreCore
      (mockOpen (mockDeleteDatabase s name).1 name (some ver)).1 name stName kp true)
      name stName = (kp, true) := by
    unfold storeParams storeSchema? dbEntry?
    rw [h3, mapGet?_set_self]
    simp [mapGet?_cons]
  have hdb3 : (mapGet? (createObjectStoreCore
      (mockOpen (mockDeleteDatabase s name).1 name (some ver)).1 name stName kp
        true).databases name).isSome := by
    rw [h3, mapGet?_set_self]
    rfl
  show (runOpG _ (MOp.add name stName v none)).2.2 = _
  simp only [runOpG, hsp]
  rw [addCore_gen _ name stName kp v hdb3,
    counterOf_congr _ s name stName hc3]

/-- A database app stored at version 5, with a store and a record, for the
version-gate claims. -/
def exV5Db : MockState :=
  ⟨[("app", ⟨5, [("users", [(MKey.num 1, MValue.vnull)])],
      [("users", ⟨MKeyPath.single "id", false, []⟩)]⟩)], []⟩

/-- C3 counterexample.  The stored version is 5 and open is called with 3;
the open request carries no error at all — in particular not a
VersionError — contradicting the claimed failure. -/
theorem c3_counterexample :
    dbVersion? exV5Db "app" = some 5 ∧
    (mockOpen exV5Db "app" (some 3)).2.error = none ∧
    ¬ ((mockOpen exV5Db "app" (some 3)).2.error = some MErr.versionError) := by
  decide

/-- C3 (amended).  Opening an existing database with a requested version
below the stored one performs no catalog mutation — the state is returned
unchanged — but the request does not fail: it completes with no error,
reporting the requested (lower) version and no upgrade. -/
theorem c3_version_gate_amended (s : MockState) (name : String) (w storedV : Nat)
    (hv : dbVersion? s name = some storedV) (hlt : w < storedV) :
    mockOpen s name (some w) = (s, ⟨none, w, false⟩) := by
  unfold dbVersion? dbEntry? at hv
  cases hdb : mapGet? s.databases name with
  | none => rw [hdb] at hv; simp at hv
  | some db =>
      rw [hdb] at hv
      have hvv : db.version = storedV := by simpa using hv
      have hnl : ¬ db.version < (some w).getD 1 := by
        show ¬ db.version < w
        omega
      simp only [mockOpen, hdb]
      rw [if_neg hnl]
      rfl

/-- C3 witness: the amended theorem applied at the concrete database stored
at version 5, opened with version 3. -/
theorem c3_version_gate_witness :
    mockOpen exV5Db "app" (some 3) = (exV5Db, ⟨none, 3, false⟩) :=
  c3_version_gate_amended exV5Db "app" 3 5 (by decide) (by decide)

/-- C9.  clear on one store empties exactly that store's record table: the
table becomes empty when it existed (and stays absent otherwise), every
other store's records — in this or any other database — are unchanged, and
so are every database version, the whole store/index schema catalog, and the
auto-increment counters. -/
theorem c9_clear_frame (s : MockState) (d t : String) :
    storeRecords? ((clearCore s d t).1) d t =
      (storeRecords? s d t).map (fun _ => ([] : List (MKey × MValue))) ∧
    (∀ d' t', ¬(d' = d ∧ t' = t) →
      storeRecords? ((clearCore s d t).1) d' t' = storeRecords? s d' t') ∧
    (∀ d', dbVersion? ((clearCore s d t).1) d' = dbVersion? s d') ∧
    (∀ d' t', storeSchema? ((clearCore s d t).1) d' t' = storeSchema? s d' t') ∧
    ((clearCore s d t).1).autoIncrementCounters = s.autoIncrementCounters := by
  cases hdb : mapGet? s.databases d with
  | none =>
      have hcc : (clearCore s d t).1 = s := by simp [clearCore, hdb]
      have hsr : storeRecords? s d t = none := by simp [storeRecords?, dbEntry?, hdb]
      rw [hcc]
      exact ⟨by rw [hsr]; rfl, fun d' t' _ => rfl, fun d' => rfl, fun d' t' => rfl, rfl⟩
  | some db =>
      cases hst : mapGet? db.stores t with
      | none =>
          have hcc : (clearCore s d t).1 = s := by simp [clearCore, hdb, hst]
          have hsr : storeRecords? s d t = none := by
            simp [storeRecords?, dbEntry?, hdb, hst]
          rw [hcc]
          exact ⟨by rw [hsr]; rfl, fun d' t' _ => rfl, fun d' => rfl, fun d' t' => rfl, rfl⟩
      | some recs =>
          have hcc : (clearCore s d t).1 = setRecords s d t [] := by
            simp [clearCore, hdb, hst]
          have hsr : storeRecords? s d t = some recs := by
            simp [storeRecords?, dbEntry?, hdb, hst]
          have hsome : (dbEntry? s d).isSome := by
            unfold dbEntry?
            rw [hdb]
            rfl
          rw [hcc]
          refine ⟨?_, ?_, ?_, ?_, ?_⟩
          · rw [storeRecords?_setRecords_self s d t [] hsome, hsr]
            rfl
          · intro d' t' h
            exact storeRecords?_setRecords_other s d t [] d' t' h
          · intro d'
            exact dbVersion?_setRecords s d t [] d'
          · intro d' t'
            exact storeSchema?_setRecords s d t [] d' t'
          · exact autoInc_setRecords s d t []

/-- Two databases, one with two populated stores, for the frame claims. -/
def exTwoStores : MockState :=
  ⟨[("app", ⟨2,
      [("users", [(MKey.num 1, MValue.vnull)]), ("logs", [(MKey.num 9, MValue.vnull)])],
      [("users", ⟨MKeyPath.single "id", false, []⟩),
       ("logs", ⟨MKeyPath.nullPath, false, []⟩)]⟩),
    ("other", ⟨1, [("users", [(MKey.num 7, MValue.vnull)])], []⟩)],
   [("app:users", 4)]⟩

/-- C9 witness: the frame theorem applied at a concrete state — clearing
app/users leaves app/logs untouched and empties app/users. -/
theorem c9_clear_frame_witness :
    storeRecords? ((clearCore exTwoStores "app" "users").1) "app" "logs" =
      storeRecords? exTwoStores "app" "logs" ∧
    storeRecords? ((clearCore exTwoStores "app" "users").1) "app" "users" = some [] := by
  have h := c9_clear_frame exTwoStores "app" "users"
  refine ⟨h.2.1 "app" "logs" (by decide), ?_⟩
  rw [h.1]
  decide

/-- A store with three records keyed 1, 2, 3, for the delete claims. -/
def exThreeRecs : MockState :=
  ⟨[("app", ⟨1, [("users",
      [(MKey.num 1, MValue.vnull), (MKey.num 2, MValue.vnull), (MKey.num 3, MValue.vnull)])],
      [("users", ⟨MKeyPath.single "id", false, []⟩)]⟩)], []⟩

/-- C6 counterexample.  delete with the range [1, 1] empties the whole
store: the record with key 3, which does not match the range, is removed
too, contradicting the claim that non-matching records remain. -/
theorem c6_counterexample :
    rangeMatchesB (MKeyOrRange.range (some (MKey.num 1)) (some (MKey.num 1)) false false)
      (MKey.num 3) = false ∧
    storeRecords? ((deleteCore exThreeRecs "app" "users"
      (MKeyOrRange.range (some (MKey.num 1)) (some (MKey.num 1)) false false)).1)
      "app" "users" = some [] := by
  decide

/-- C6 (amended).  delete with any range argument removes every record of
the store (the mock clears the whole table, ignoring the bounds); delete
with a single key removes exactly the record under that key, leaving every
other record unchanged. -/
theorem c6_delete_semantics (s : MockState) (d t : String)
    (records : List (MKey × MValue)) (h : storeRecords? s d t = some records) :
    (∀ lo hi lo' hi',
      storeRecords? ((deleteCore s d t (MKeyOrRange.range lo hi lo' hi')).1) d t =
        some []) ∧
    (∀ k, storeRecords? ((deleteCore s d t (MKeyOrRange.key k)).1) d t =
        some (mapDelete records k)) ∧
    (∀ k k', k' ≠ k → mapGet? (mapDelete records k) k' = mapGet? records k') := by
  unfold storeRecords? dbEntry? at h
  cases hdb : mapGet? s.databases d with
  | none => rw [hdb] at h; simp at h
  | some db =>
      rw [hdb] at h
      have hst : mapGet? db.stores t = some records := by simpa using h
      have hsome : (dbEntry? s d).isSome := by
        unfold dbEntry?
        rw [hdb]
        rfl
      refine ⟨?_, ?_, ?_⟩
      · intro lo hi lo' hi'
        have hdel : (deleteCore s d t (MKeyOrRange.range lo hi lo' hi')).1 =
            setRecords s d t [] := by
          simp [deleteCore, hdb, hst]
        rw [hdel]
        exact storeRecords?_setRecords_self s d t [] hsome
      · intro k
        have hdel : (deleteCore s d t (MKeyOrRange.key k)).1 =
            setRecords s d t (mapDelete records k) := by
          simp [deleteCore, hdb, hst]
        rw [hdel]
        exact storeRecords?_setRecords_self s d t _ hsome
      · intro k k' hk
        exact mapGet?_delete_ne records k k' hk

/-- C6 witness: the amended theorem applied at the three-record store,
deleting single key 2. -/
theorem c6_delete_witness :
    storeRecords? ((deleteCore exThreeRecs "app" "users"
        (MKeyOrRange.key (MKey.num 2))).1) "app" "users" =
      some (mapDelete
        [(MKey.num 1, MValue.vnull), (MKey.num 2, MValue.vnull), (MKey.num 3, MValue.vnull)]
        (MKey.num 2)) :=
  (c6_delete_semantics exThreeRecs "app" "users" _ (by decide)).2.1 (MKey.num 2)

/-- The users store after createIndex installed a unique email index. -/
def exWithIndex : MockState :=
  createIndexCore exUsersDb "app" "users" "email" (MKeyPath.single "email") true false

/-- The state after the first add of the §8 scenario succeeded. -/
def exAfterFirst : MockState :=
  (runOpG exWithIndex (MOp.add "app" "users" exRec1 none)).1

/-- C2 counterexample.  The §8 scenario: the store carries a unique email
index, the stored record and the new value share the email value, yet the
second add succeeds with key 2 and both records end up in the table —
contradicting the claimed Constraint failure and unchanged table. -/
theorem c2_counterexample :
    storeSchema? exAfterFirst "app" "users" =
      some ⟨MKeyPath.single "id", false,
        [("email", ⟨MKeyPath.single "email", true, false⟩)]⟩ ∧
    indexedValue exRec1 "email" = indexedValue exRec2 "email" ∧
    storeRecords? exAfterFirst "app" "users" = some [(MKey.num 1, exRec1)] ∧
    (runOpG exAfterFirst (MOp.add "app" "users" exRec2 none)).2.1 =
      ReqResult.success (some (MKey.num 2)) ∧
    storeRecords? ((runOpG exAfterFirst (MOp.add "app" "users" exRec2 none)).1)
      "app" "users" = some [(MKey.num 1, exRec1), (MKey.num 2, exRec2)] := by
  decide

/-- C2 (amended).  A unique index is never consulted by add: whenever a
keyless add against a non-auto-increment store resolves its key-path key to
a key not yet present, the request succeeds and the record is inserted —
even when the store has a unique index and an existing record with a
different primary key carries the same indexed key-path value. -/
theorem c2_unique_index_not_enforced (s : MockState) (d t ip iname p : String)
    (sch : MStoreSchema) (idx : MIndexSchema) (records : List (MKey × MValue))
    (fs : List (String × MKey)) (k pk0 : MKey) (v0 : MValue)
    (hsch : storeSchema? s d t = some sch)
    (hai : sch.autoIncrement = false)
    (hkp : stringKeyPath sch.keyPath = some p)
    (hrec : storeRecords? s d t = some records)
    (hidx : mapGet? sch.indexes iname = some idx)
    (huni : idx.unique = true)
    (hip : stringKeyPath idx.keyPath = some ip)
    (hmem : (pk0, v0) ∈ records)
    (hcoll : indexedValue v0 ip = indexedValue (MValue.obj fs) ip)
    (hne : pk0 ≠ k)
    (hres : (objGet fs p).getD MKey.undef = k)
    (hfresh : mapHas records k = false) :
    (runOpG s (MOp.add d t (MValue.obj fs) none)).2.1 = ReqResult.success (some k) ∧
    storeRecords? ((runOpG s (MOp.add d t (MValue.obj fs) none)).1) d t =
      some (mapSet records k (MValue.obj fs)) := by
  unfold storeSchema? dbEntry? at hsch
  cases hdb : mapGet? s.databases d with
  | none => rw [hdb] at hsch; simp at hsch
  | some db =>
      rw [hdb] at hsch
      have hschm : mapGet? db.storeSchemas t = some sch := by simpa using hsch
      have hst : mapGet? db.stores t = some records := by
        unfold storeRecords? dbEntry? at hrec
        rw [hdb] at hrec
        simpa using hrec
      have hsome : (dbEntry? s d).isSome := by
        unfold dbEntry?
        rw [hdb]
        rfl
      have hens : ensureStore s d t = (s, records) := by
        simp [ensureStore, hdb, hst]
      have hparams : storeParams s d t = (sch.keyPath, false) := by
        have : storeSchema? s d t = some sch := by
          unfold storeSchema? dbEntry?
          rw [hdb]
          simpa using hschm
        simp only [storeParams, this, hai]
      have hrun : runOpG s (MOp.add d t (MValue.obj fs) none) =
          (setRecords s d t (mapSet records k (MValue.obj fs)),
            ReqResult.success (some k), none) := by
        simp only [runOpG, hparams]
        simp only [addCore, hdb, hens, hkp, hres, hfresh, Bool.false_eq_true, if_false]
      rw [hrun]
      exact ⟨rfl, storeRecords?_setRecords_self s d t _ hsome⟩

/-- C2 witness: the amended theorem at the §8 scenario — the colliding
second add succeeds and is stored. -/
theorem c2_unique_index_witness :
    (runOpG exAfterFirst (MOp.add "app" "users"
        (MValue.obj [("id", MKey.num 2), ("email", MKey.str "a@x.com")]) none)).2.1 =
      ReqResult.success (some (MKey.num 2)) :=
  (c2_unique_index_not_enforced exAfterFirst "app" "users" "email" "email" "id"
    ⟨MKeyPath.single "id", false, [("email", ⟨MKeyPath.single "email", true, false⟩)]⟩
    ⟨MKeyPath.single "email", true, false⟩ [(MKey.num 1, exRec1)]
    [("id", MKey.num 2), ("email", MKey.str "a@x.com")] (MKey.num 2) (MKey.num 1) exRec1
    (by decide) (by decide) (by decide) (by decide) (by decide) (by decide) (by decide)
    (by decide) (by decide) (by decide) (by decide) (by decide)).1

/-- The users store populated by two adds with explicit keys 5 then 3 — a
record table whose insertion order disagrees with the key order. -/
def exOutOfOrder : MockState :=
  runOps exUsersDb [MOp.add "app" "users" MValue.vnull (some (MKey.num 5)),
    MOp.add "app" "users" MValue.vnull (some (MKey.num 3))]

/-- C7 counterexample.  A cursor with direction next over the store whose
entries were inserted as 5 then 3 reports key 5 first and key 3 after one
continue: the observed keys are not strictly increasing under the key
order, contradicting the claimed monotonicity. -/
theorem c7_counterexample :
    (openCursorCore exOutOfOrder "app" "users" MDirection.next).map cursorKey =
      some (some (MKey.num 5)) ∧
    (openCursorCore exOutOfOrder "app" "users" MDirection.next).map
      (fun c => cursorKey (continueCursor c none)) = some (some (MKey.num 3)) ∧
    keyLtB (MKey.num 5) (MKey.num 3) = false := by
  decide

/-- C7 (amended).  A store cursor walks the record table's entries in
insertion order: after n argument-less continue calls a next cursor reports
the key of entry n (undefined once n passes the end), and a prev cursor the
key of entry length-1-n (undefined once n passes the front).  The keys are
therefore ordered by position, not re-sorted by the key order, and the
cursor is exhausted exactly when the position leaves the entries array. -/
theorem c7_cursor_insertion_order (entries : List (MKey × MValue)) (n : Nat)
    (c cp : MCursor)
    (hc : createMockCursor entries MDirection.next = some c)
    (hp : createMockCursor entries MDirection.prev = some cp) :
    cursorKey (continueN c n) = (entries.get? n).map (fun q => q.1) ∧
    cursorKey (continueN cp n) =
      (if n < entries.length then
        (entries.get? (entries.length - 1 - n)).map (fun q => q.1)
      else none) := by
  unfold createMockCursor at hc hp
  by_cases hlen : entries.length = 0
  · rw [if_pos hlen] at hc
    exact absurd hc (by simp)
  · rw [if_neg hlen] at hc hp
    have hc' : c = ⟨entries, MDirection.next, 0⟩ := (Option.some.inj hc).symm
    have hp' : cp = ⟨entries, MDirection.prev, (entries.length : Int) - 1⟩ :=
      (Option.some.inj hp).symm
    constructor
    · rw [hc', continueN_spec]
      show cursorKey ⟨entries, MDirection.next, 0 + (n : Int)⟩ = _
      rw [cursorKey_mk]
      by_cases hn : n < entries.length
      · rw [if_pos (by constructor <;> omega)]
        have ht : ((0 : Int) + (n : Int)).toNat = n := by omega
        rw [ht]
      · rw [if_neg (by omega)]
        rw [List.get?_eq_none.mpr (by omega)]
        rfl
    · rw [hp', continueN_spec]
      show cursorKey ⟨entries, MDirection.prev, (entries.length : Int) - 1 - (n : Int)⟩ = _
      rw [cursorKey_mk]
      by_cases hn : n < entries.length
      · rw [if_pos (by constructor <;> omega), if_pos hn]
        have ht : ((entries.length : Int) - 1 - (n : Int)).toNat =
            entries.length - 1 - n := by omega
        rw [ht]
      · rw [if_neg (by omega), if_neg hn]

/-- C7 witness: the amended theorem applied to a two-entry store, one
continue on a next cursor reaching the second inserted entry. -/
theorem c7_cursor_witness :
    cursorKey (continueN
      ⟨[(MKey.num 1, MValue.vnull), (MKey.num 2, MValue.vnull)], MDirection.next, 0⟩ 1) =
      some (MKey.num 2) := by
  have h := c7_cursor_insertion_order
    [(MKey.num 1, MValue.vnull), (MKey.num 2, MValue.vnull)] 1
    ⟨[(MKey.num 1, MValue.vnull), (MKey.num 2, MValue.vnull)], MDirection.next, 0⟩
    ⟨[(MKey.num 1, MValue.vnull), (MKey.num 2, MValue.vnull)], MDirection.prev, 1⟩
    (by decide) (by decide)
  rw [h.1]
  decide

/-- The seeding schema of the C10 scenario: one non-auto-increment store
with string key path id and a single keyless item whose object value lacks
the id property. -/
def exSeedSchema : MDatabaseSchemaIn :=
  ⟨"db", 1, [⟨"st", MKeyPath.single "id", false, [],
    [⟨none, MValue.obj [("name", MKey.str "x")]⟩]⟩]⟩

/-- C10 counterexample.  The item has no explicit key, its store is not
auto-increment, and its object value yields no key at the store's key path
(no id property) — yet it is not skipped: seedDatabase stores it under the
undefined key. -/
theorem c10_counterexample :
    objGet [("name", MKey.str "x")] "id" = none ∧
    storeRecords? (seedDatabase ⟨[], []⟩ exSeedSchema) "db" "st" =
      some [(MKey.undef, MValue.obj [("name", MKey.str "x")])] ∧
    ¬ (storeRecords? (seedDatabase ⟨[], []⟩ exSeedSchema) "db" "st" = some []) := by
  decide

/-- C10 (amended).  seedDatabase replaces the whole entry under the
schema's name — the result is independent of whatever databases were
stored before (only the counters carry over).  A keyless item of a
non-auto-increment store is skipped exactly when the store has no usable
string key path or its value is not an object; an object value is stored
even when the key-path property is missing, under the undefined key. -/
theorem c10_seed_semantics (s1 s2 : MockState) (sch : MDatabaseSchemaIn)
    (hc : s1.autoIncrementCounters = s2.autoIncrementCounters)
    (dbName stName : String) (ver : Nat) (kp : MKeyPath) (v : MValue) :
    dbEntry? (seedDatabase s1 sch) sch.name = dbEntry? (seedDatabase s2 sch) sch.name ∧
    storeRecords? (seedDatabase s1 ⟨dbName, ver, [⟨stName, kp, false, [], [⟨none, v⟩]⟩]⟩)
        dbName stName =
      some (match stringKeyPath kp, v with
            | some p, MValue.obj fs => [((objGet fs p).getD MKey.undef, MValue.obj fs)]
            | _, _ => []) := by
  constructor
  · unfold seedDatabase dbEntry?
    rw [mapGet?_set_self, mapGet?_set_self, hc]
  · unfold seedDatabase storeRecords? dbEntry?
    rw [mapGet?_set_self]
    show mapGet? (seedStores _ s1.autoIncrementCounters).1 stName = _
    simp only [seedStores, List.foldl_cons, List.foldl_nil, seedStoreData, seedItem]
    cases hsp : stringKeyPath kp with
    | none =>
        cases v <;> simp [hsp, mapSet, mapHas, mapGet?_cons]
    | some p =>
        cases v with
        | scalar k0 => simp [hsp, mapSet, mapHas, mapGet?_cons]
        | vnull => simp [hsp, mapSet, mapHas, mapGet?_cons]
        | obj fs => simp [hsp, mapSet, mapHas, mapGet?_cons]

/-- C10 witness: the amended theorem at the concrete schema — the keyless
object item without the id property is stored under the undefined key. -/
theorem c10_seed_witness :
    storeRecords? (seedDatabase ⟨[], []⟩
        ⟨"db", 1, [⟨"st", MKeyPath.single "id", false, [],
          [⟨none, MValue.obj [("name", MKey.str "x")]⟩]⟩]⟩) "db" "st" =
      some [(MKey.undef, MValue.obj [("name", MKey.str "x")])] := by
  have h := (c10_seed_semantics ⟨[], []⟩ ⟨[], []⟩ exSeedSchema rfl "db" "st" 1
    (MKeyPath.single "id") (MValue.obj [("name", MKey.str "x")])).2
  rw [h]
  decide

end MockIDB
